import Mathlib

set_option linter.unusedSectionVars false

/-!
Verification of the mount-plan resolution engine of `dm/scripts/setup.py`.

The embedding models the pure data flow of the script:

* `MountInfo` is one mount record (the Python dict / `util.Config` value).
* Python `dict` (insertion-ordered, replace-on-collision) is modelled by an
  association list together with `dictInsert` / `dictUpd` / `dictOf`, which
  reproduce `d[k] = v`, `d.update(other)` and `dict(pairs)` exactly:
  an existing key keeps its position and gets the new value, a new key is
  appended at the end.
* `Path(...).resolve()` and `util.get_pid(...)` are external to the script
  (filesystem state, naming convention), so they are passed in as opaque
  function parameters `resolve` and `get_pid`; every theorem holds for all
  of them.
* File side effects are modelled by pure functions from the prior file
  content and the written data to the new content.
-/

/-- One mount record: the value stored in the `mounts` dict of
`prepare_network_mounts` (fields of the `CONTROL_NFS` template and of the
entries of `cfg.network_storage`). -/
structure MountInfo where
  server_ip : String
  remote_mount : String
  local_mount : String
  fs_type : String
  mount_options : String
deriving DecidableEq, Repr

section Dict

variable {α : Type} {β : Type} [DecidableEq α]

/-- Key list of an association list (Python `dict.keys()`, in order). -/
def keys (d : List (α × β)) : List α := d.map Prod.fst

/-- First-match lookup (with unique keys this is Python `d[k]`). -/
def dlookup (k : α) : List (α × β) → Option β
  | [] => none
  | p :: rest => if p.1 = k then some p.2 else dlookup k rest

/-- Python `d[k] = v`: replace in place if the key exists, else append. -/
def dictInsert (d : List (α × β)) (k : α) (v : β) : List (α × β) :=
  if k ∈ keys d then d.map (fun p => if p.1 = k then (k, v) else p)
  else d ++ [(k, v)]

/-- Python `d.update(l)`: insert the items of `l` in order. -/
def dictUpd (d l : List (α × β)) : List (α × β) :=
  l.foldl (fun acc p => dictInsert acc p.1 p.2) d

/-- Python `dict(pairs)` / dict comprehension over a pair sequence. -/
def dictOf (l : List (α × β)) : List (α × β) := dictUpd [] l

/-- The keys of the association list are pairwise distinct. -/
def NodupKeys (d : List (α × β)) : Prop := (keys d).Nodup

theorem mem_keys {d : List (α × β)} {k : α} :
    k ∈ keys d ↔ ∃ v, (k, v) ∈ d := by
  constructor
  · intro h
    rcases List.mem_map.mp h with ⟨⟨a, b⟩, hp, heq⟩
    exact ⟨b, by simpa [← heq] using hp⟩
  · rintro ⟨v, hv⟩
    exact List.mem_map.mpr ⟨(k, v), hv, rfl⟩

theorem fst_mem_keys {d : List (α × β)} {k : α} {v : β} (h : (k, v) ∈ d) :
    k ∈ keys d := mem_keys.mpr ⟨v, h⟩

theorem keys_cons {p : α × β} {d : List (α × β)} :
    keys (p :: d) = p.1 :: keys d := rfl

theorem mem_keys_cons {p : α × β} {d : List (α × β)} {x : α} :
    x ∈ keys (p :: d) ↔ x = p.1 ∨ x ∈ keys d := by
  rw [keys_cons, List.mem_cons]

theorem nodupKeys_cons {p : α × β} {d : List (α × β)}
    (h : NodupKeys (p :: d)) : p.1 ∉ keys d ∧ NodupKeys d := by
  unfold NodupKeys at h ⊢
  rw [keys_cons] at h
  exact List.nodup_cons.mp h

theorem keys_dictInsert_of_mem {d : List (α × β)} {k : α} {v : β}
    (h : k ∈ keys d) : keys (dictInsert d k v) = keys d := by
  unfold dictInsert
  rw [if_pos h]
  unfold keys
  rw [List.map_map]
  refine List.map_congr_left ?_
  intro p _
  by_cases hp : p.1 = k
  · simp [hp]
  · simp [hp]

theorem keys_dictInsert_of_not_mem {d : List (α × β)} {k : α} {v : β}
    (h : k ∉ keys d) : keys (dictInsert d k v) = keys d ++ [k] := by
  unfold dictInsert
  rw [if_neg h]
  unfold keys
  simp

theorem mem_keys_dictInsert {d : List (α × β)} {k x : α} {v : β} :
    x ∈ keys (dictInsert d k v) ↔ x ∈ keys d ∨ x = k := by
  by_cases h : k ∈ keys d
  · rw [keys_dictInsert_of_mem h]
    constructor
    · exact Or.inl
    · rintro (hx | rfl)
      · exact hx
      · exact h
  · rw [keys_dictInsert_of_not_mem h]
    simp

theorem nodupKeys_dictInsert {d : List (α × β)} {k : α} {v : β}
    (h : NodupKeys d) : NodupKeys (dictInsert d k v) := by
  unfold NodupKeys at h ⊢
  by_cases hk : k ∈ keys d
  · rwa [keys_dictInsert_of_mem hk]
  · rw [keys_dictInsert_of_not_mem hk]
    refine List.Nodup.append h (List.nodup_singleton k) ?_
    intro a ha hb
    rw [List.mem_singleton] at hb
    exact hk (hb ▸ ha)

theorem dlookup_eq_none {d : List (α × β)} {k : α} :
    dlookup k d = none ↔ k ∉ keys d := by
  induction d with
  | nil => simp [dlookup, keys]
  | cons p rest ih =>
    by_cases hp : p.1 = k
    · rw [dlookup, if_pos hp]
      simp only [mem_keys_cons]
      constructor
      · intro h
        exact absurd h (by simp)
      · intro h
        exact absurd (Or.inl hp.symm) h
    · have hp' : k ≠ p.1 := fun e => hp e.symm
      rw [dlookup, if_neg hp]
      simp only [mem_keys_cons, ih]
      constructor
      · intro h hc
        rcases hc with hc | hc
        · exact hp' hc
        · exact h hc
      · intro h hc
        exact h (Or.inr hc)

theorem dlookup_append_of_not_mem {d₁ d₂ : List (α × β)} {k : α}
    (h : k ∉ keys d₁) : dlookup k (d₁ ++ d₂) = dlookup k d₂ := by
  induction d₁ with
  | nil => rfl
  | cons p rest ih =>
    have hp : p.1 ≠ k := fun e => h (mem_keys_cons.mpr (Or.inl e.symm))
    have hr : k ∉ keys rest := fun hx => h (mem_keys_cons.mpr (Or.inr hx))
    rw [List.cons_append, dlookup, if_neg hp]
    exact ih hr

theorem dlookup_map_replace_ne {d : List (α × β)} {k k' : α} {v : β}
    (h : k' ≠ k) :
    dlookup k' (d.map (fun p => if p.1 = k then (k, v) else p)) = dlookup k' d := by
  induction d with
  | nil => rfl
  | cons p rest ih =>
    rw [List.map_cons]
    by_cases hp : p.1 = k
    · rw [if_pos hp, dlookup, dlookup, if_neg (fun e => h e.symm),
        if_neg (fun e => h (hp ▸ e).symm)]
      exact ih
    · rw [if_neg hp]
      by_cases hk' : p.1 = k'
      · rw [dlookup, dlookup, if_pos hk', if_pos hk']
      · rw [dlookup, dlookup, if_neg hk', if_neg hk']
        exact ih

theorem dlookup_map_replace_self {d : List (α × β)} {k : α} {v : β}
    (h : k ∈ keys d) :
    dlookup k (d.map (fun p => if p.1 = k then (k, v) else p)) = some v := by
  induction d with
  | nil => simp [keys] at h
  | cons p rest ih =>
    rw [List.map_cons]
    by_cases hp : p.1 = k
    · rw [if_pos hp, dlookup, if_pos rfl]
    · rw [if_neg hp, dlookup, if_neg hp]
      rcases mem_keys_cons.mp h with h1 | h1
      · exact absurd h1.symm hp
      · exact ih h1

theorem dlookup_dictInsert_self {d : List (α × β)} {k : α} {v : β} :
    dlookup k (dictInsert d k v) = some v := by
  unfold dictInsert
  by_cases h : k ∈ keys d
  · rw [if_pos h]
    exact dlookup_map_replace_self h
  · rw [if_neg h, dlookup_append_of_not_mem h, dlookup, if_pos rfl]

theorem dlookup_dictInsert_ne {d : List (α × β)} {k k' : α} {v : β}
    (h : k' ≠ k) : dlookup k' (dictInsert d k v) = dlookup k' d := by
  unfold dictInsert
  by_cases hm : k ∈ keys d
  · rw [if_pos hm]
    exact dlookup_map_replace_ne h
  · rw [if_neg hm]
    induction d with
    | nil =>
      have h' : ¬(k = k') := fun e => h e.symm
      simp [dlookup, h']
    | cons p rest ih =>
      by_cases hp : p.1 = k'
      · rw [List.cons_append, dlookup, dlookup, if_pos hp, if_pos hp]
      · rw [List.cons_append, dlookup, dlookup, if_neg hp, if_neg hp]
        exact ih (fun hx => hm (mem_keys_cons.mpr (Or.inr hx)))

theorem dictUpd_nil {d : List (α × β)} : dictUpd d [] = d := rfl

theorem dictUpd_cons {d : List (α × β)} {p : α × β} {l : List (α × β)} :
    dictUpd d (p :: l) = dictUpd (dictInsert d p.1 p.2) l := rfl

theorem mem_keys_dictUpd {d l : List (α × β)} {x : α} :
    x ∈ keys (dictUpd d l) ↔ x ∈ keys d ∨ x ∈ keys l := by
  induction l generalizing d with
  | nil => simp [dictUpd, keys]
  | cons p rest ih =>
    rw [dictUpd_cons, ih, mem_keys_dictInsert, mem_keys_cons]
    constructor
    · rintro ((h | h) | h)
      · exact Or.inl h
      · exact Or.inr (Or.inl h)
      · exact Or.inr (Or.inr h)
    · rintro (h | h | h)
      · exact Or.inl (Or.inl h)
      · exact Or.inl (Or.inr h)
      · exact Or.inr h

theorem nodupKeys_dictUpd {d l : List (α × β)} (h : NodupKeys d) :
    NodupKeys (dictUpd d l) := by
  induction l generalizing d with
  | nil => exact h
  | cons p rest ih =>
    rw [dictUpd_cons]
    exact ih (nodupKeys_dictInsert h)

theorem nodupKeys_dictOf {l : List (α × β)} : NodupKeys (dictOf l) := by
  unfold dictOf
  apply nodupKeys_dictUpd
  simp [NodupKeys, keys]

theorem dlookup_dictUpd_of_not_mem {d l : List (α × β)} {x : α}
    (h : x ∉ keys l) : dlookup x (dictUpd d l) = dlookup x d := by
  induction l generalizing d with
  | nil => rfl
  | cons p rest ih =>
    have hp : x ≠ p.1 := fun e => h (mem_keys_cons.mpr (Or.inl e))
    have hr : x ∉ keys rest := fun hx => h (mem_keys_cons.mpr (Or.inr hx))
    rw [dictUpd_cons, ih hr, dlookup_dictInsert_ne hp]

theorem dlookup_dictUpd_of_mem {d l : List (α × β)} {x : α}
    (hl : NodupKeys l) (h : x ∈ keys l) :
    dlookup x (dictUpd d l) = dlookup x l := by
  induction l generalizing d with
  | nil => simp [keys] at h
  | cons p rest ih =>
    obtain ⟨hnp, hnrest⟩ := nodupKeys_cons hl
    by_cases hx : x = p.1
    · have hxr : x ∉ keys rest := hx ▸ hnp
      rw [dictUpd_cons, dlookup_dictUpd_of_not_mem hxr, hx,
        dlookup_dictInsert_self, dlookup, if_pos rfl]
    · have hr : x ∈ keys rest := by
        rcases mem_keys_cons.mp h with h1 | h1
        · exact absurd h1 hx
        · exact h1
      rw [dictUpd_cons, ih hnrest hr, dlookup, if_neg (fun e => hx e.symm)]

theorem dictUpd_eq_append {d l : List (α × β)}
    (hd : ∀ p ∈ l, p.1 ∉ keys d) (hl : NodupKeys l) :
    dictUpd d l = d ++ l := by
  induction l generalizing d with
  | nil => simp [dictUpd]
  | cons p rest ih =>
    obtain ⟨hnp, hnrest⟩ := nodupKeys_cons hl
    have h1 : p.1 ∉ keys d := hd p (List.mem_cons_self p rest)
    have hins : dictInsert d p.1 p.2 = d ++ [p] := by
      unfold dictInsert
      rw [if_neg h1]
    rw [dictUpd_cons, hins, ih ?_ hnrest]
    · simp
    · intro q hq
      have hqk : q.1 ∈ keys rest := fst_mem_keys (by simpa using hq)
      have hq1 : q.1 ∉ keys d := hd q (List.mem_cons_of_mem p hq)
      intro hmem
      rw [keys, List.map_append] at hmem
      rcases List.mem_append.mp hmem with hc | hc
      · exact hq1 hc
      · rw [List.map_singleton, List.mem_singleton] at hc
        exact hnp (hc ▸ hqk)

theorem dictOf_eq_self {l : List (α × β)} (hl : NodupKeys l) : dictOf l = l := by
  have h := dictUpd_eq_append (d := ([] : List (α × β))) (l := l)
    (by simp [keys]) hl
  simpa [dictOf] using h

theorem nodupKeys_value_unique {d : List (α × β)} {k : α} {v₁ v₂ : β}
    (h : NodupKeys d) (h1 : (k, v₁) ∈ d) (h2 : (k, v₂) ∈ d) : v₁ = v₂ := by
  induction d with
  | nil => simp at h1
  | cons p rest ih =>
    obtain ⟨hnp, hnrest⟩ := nodupKeys_cons h
    rcases List.mem_cons.mp h1 with e1 | m1 <;>
      rcases List.mem_cons.mp h2 with e2 | m2
    · exact congrArg Prod.snd (e1.trans e2.symm)
    · exact absurd (show p.1 ∈ keys rest from e1 ▸ fst_mem_keys m2) hnp
    · exact absurd (show p.1 ∈ keys rest from e2 ▸ fst_mem_keys m1) hnp
    · exact ih hnrest m1 m2

theorem dlookup_eq_some_of_mem {d : List (α × β)} {k : α} {v : β}
    (h : NodupKeys d) (hm : (k, v) ∈ d) : dlookup k d = some v := by
  induction d with
  | nil => simp at hm
  | cons p rest ih =>
    obtain ⟨hnp, hnrest⟩ := nodupKeys_cons h
    rcases List.mem_cons.mp hm with e | m
    · rw [← e, dlookup, if_pos rfl]
    · have hp : p.1 ≠ k := fun e => hnp (e ▸ fst_mem_keys m)
      rw [dlookup, if_neg hp]
      exact ih hnrest m

theorem mem_of_dlookup_eq_some {d : List (α × β)} {k : α} {v : β}
    (h : dlookup k d = some v) : (k, v) ∈ d := by
  induction d with
  | nil => simp [dlookup] at h
  | cons p rest ih =>
    by_cases hp : p.1 = k
    · rw [dlookup, if_pos hp] at h
      obtain ⟨a, b⟩ := p
      obtain rfl : b = v := Option.some.inj h
      obtain rfl : a = k := hp
      exact List.mem_cons_self _ _
    · rw [dlookup, if_neg hp] at h
      exact List.mem_cons_of_mem _ (ih h)

end Dict

/-! ## The embedded program: `dm/scripts/setup.py` -/

/-- `CONTROL_MACHINE = cfg.cluster_name + '-controller'`. -/
def CONTROL_MACHINE (cluster_name : String) : String :=
  cluster_name ++ "-controller"

/-- The `default_mounts` tuple `(dirs.home, dirs.apps, dirs.apps_sec)`. -/
def default_mounts : List String := ["/home", "/apps", "/mnt/disks/sec/apps"]

/-- `util.Config(CONTROL_NFS, local_mount=path, remote_mount=path)`: the
`CONTROL_NFS` template with both mount paths set to `path`. -/
def control_nfs (cluster_name path : String) : MountInfo :=
  { server_ip := CONTROL_MACHINE cluster_name
    remote_mount := path
    local_mount := path
    fs_type := "nfs"
    mount_options := "defaults,hard,intr" }

/-- The seed dict `mounts = {path: Config(CONTROL_NFS, ...) for path in
default_mounts}`. -/
def seeded_mounts (cluster_name : String) : List (String × MountInfo) :=
  default_mounts.map (fun path => (path, control_nfs cluster_name path))

/-- The relevant fields of the `cfg` object read from instance metadata.
`instance_defs` maps a partition id to that partition's `network_storage`
list (the only field of an instance definition the mount engine reads). -/
structure Cfg where
  cluster_name : String
  hostname : String
  instance_type : String
  network_storage : List MountInfo
  login_network_storage : List MountInfo
  instance_defs : List (String × List MountInfo)
deriving Repr

/-- `listtodict(mountlist)`: `{Path(d['local_mount']).resolve(): d for d in
mountlist}`.  `Path.resolve` is filesystem state, passed in as `resolve`. -/
def listtodict (resolve : String → String) (mountlist : List MountInfo) :
    List (String × MountInfo) :=
  dictOf (mountlist.map (fun d => (resolve d.local_mount, d)))

/-- The role-specific override list: the per-partition `network_storage` for
compute nodes (`cfg.instance_defs[util.get_pid(hostname)]`), the
`login_network_storage` list otherwise. -/
def role_storage (get_pid : String → String) (cfg : Cfg)
    (hostname instance_type : String) : List MountInfo :=
  if instance_type = "compute" then
    (dlookup (get_pid hostname) cfg.instance_defs).getD []
  else cfg.login_network_storage

/-- The fully merged `mounts` dict of `prepare_network_mounts` just before
partitioning: defaults, then `cfg.network_storage`, then the role list. -/
def resolved_mounts (resolve get_pid : String → String) (cfg : Cfg)
    (hostname instance_type : String) : List (String × MountInfo) :=
  dictUpd
    (dictUpd (seeded_mounts cfg.cluster_name)
      (listtodict resolve cfg.network_storage))
    (listtodict resolve (role_storage get_pid cfg hostname instance_type))

/-- `internal_mount(mount)`: `mount[1].server_ip == CONTROL_MACHINE`. -/
def internal_mount (cluster_name : String) (mount : String × MountInfo) : Bool :=
  mount.2.server_ip == CONTROL_MACHINE cluster_name

/-- The `partition(pred, coll)` reduce of the source: appends each element to
`acc[pred(el)]`, returning `([False], [True])`. -/
def partition {γ : Type} (pred : γ → Bool) (coll : List γ) :
    List γ × List γ :=
  coll.foldl
    (fun acc el => if pred el then (acc.1, acc.2 ++ [el]) else (acc.1 ++ [el], acc.2))
    ([], [])

/-- `prepare_network_mounts(hostname, instance_type)`: build the catalog,
partition it on `internal_mount`, and return `(external, internal)` as
dicts (`tuple(map(dict, partition(...)))`). -/
def prepare_network_mounts (resolve get_pid : String → String) (cfg : Cfg)
    (hostname instance_type : String) :
    List (String × MountInfo) × List (String × MountInfo) :=
  (dictOf (partition (internal_mount cfg.cluster_name)
      (resolved_mounts resolve get_pid cfg hostname instance_type)).1,
    dictOf (partition (internal_mount cfg.cluster_name)
      (resolved_mounts resolve get_pid cfg hostname instance_type)).2)

/-- `mount_options.split(',')` of Python, on the raw char sequence. -/
def splitCommaAux : List Char → List Char → List String
  | [], acc => [String.mk acc.reverse]
  | c :: rest, acc =>
    if c = ',' then String.mk acc.reverse :: splitCommaAux rest []
    else splitCommaAux rest (c :: acc)

/-- Python `s.split(',')` (single-character separator, empty parts kept). -/
def splitComma (s : String) : List String := splitCommaAux s.data []

/-- `mount.mount_options.split(',') if mount.mount_options else []`. -/
def option_list_of (mount_options : String) : List String :=
  if mount_options = "" then [] else splitComma mount_options

/-- `if not mount_options or '_netdev' not in mount_options:
mount_options += ['_netdev']`. -/
def add_netdev (opts : List String) : List String :=
  if opts = [] ∨ "_netdev" ∉ opts then opts ++ ["_netdev"] else opts

/-- The option list as rendered into the fstab line: `_netdev` handling for
every record, then the `nonempty` handling of the `gcsfuse` branch. -/
def mount_options_list (fs_type mount_options : String) : List String :=
  if fs_type = "gcsfuse" then
    (if "nonempty" ∉ add_netdev (option_list_of mount_options) then
      add_netdev (option_list_of mount_options) ++ ["nonempty"]
    else add_netdev (option_list_of mount_options))
  else add_netdev (option_list_of mount_options)

/-- The fstab line appended for one `(local_mount, mount)` item, following
the two `format` strings of `setup_network_storage` byte for byte. -/
def render_line (resolve : String → String) (local_mount : String)
    (m : MountInfo) : String :=
  let opts := String.intercalate "," (mount_options_list m.fs_type m.mount_options)
  if m.fs_type = "gcsfuse" then
    m.remote_mount ++ "   " ++ local_mount ++ "     " ++ m.fs_type ++ "     "
      ++ opts ++ "     0 0"
  else
    m.server_ip ++ ":" ++ resolve m.remote_mount ++ "    " ++ local_mount
      ++ "     " ++ m.fs_type ++ "      " ++ opts ++ "  0 0"

/-- One iteration of the fstab loop: `None` models the
`continue` for controller mounts observed on the controller itself. -/
def render_entry (resolve : String → String) (cluster_name instance_type : String)
    (p : String × MountInfo) : Option String :=
  if p.2.server_ip = CONTROL_MACHINE cluster_name ∧ instance_type = "controller"
  then none
  else some (render_line resolve p.1 p.2)

/-- The `mounts` dict iterated by `setup_network_storage`: the external
mounts, updated with the internal ones on every non-controller node. -/
def node_mounts (resolve get_pid : String → String) (cfg : Cfg) :
    List (String × MountInfo) :=
  if cfg.instance_type ≠ "controller" then
    dictUpd (prepare_network_mounts resolve get_pid cfg cfg.hostname cfg.instance_type).1
      (prepare_network_mounts resolve get_pid cfg cfg.hostname cfg.instance_type).2
  else (prepare_network_mounts resolve get_pid cfg cfg.hostname cfg.instance_type).1

/-- The `fstab_entries` list built by `setup_network_storage`. -/
def fstab_entries (resolve get_pid : String → String) (cfg : Cfg) : List String :=
  (node_mounts resolve get_pid cfg).filterMap
    (render_entry resolve cfg.cluster_name cfg.instance_type)

/-- The `/etc/fstab` append block: `f.write('\n')` followed by one
`f.write(entry); f.write('\n')` per entry, on file opened with mode `'a'`. -/
def write_fstab (prior : String) (entries : List String) : String :=
  entries.foldl (fun acc e => acc ++ e ++ "\n") (prior ++ "\n")

/-- Observable actions of the `mount_path` wait loop. -/
inductive Event where
  | logWaiting (path : String)
  | runCmd (cmd : String) (wait : Nat)
deriving DecidableEq, Repr

/-- The `mount_path` loop of `mount_fstab`, driven by the environment
`ismount` (the value `os.path.ismount(path)` returns at the n-th poll).
`fuel` bounds how many polls we observe; the result records the emitted
log/run events and whether the loop has exited within that many polls. -/
def mount_path (ismount : Nat → Bool) (path : String) :
    Nat → Nat → List Event × Bool
  | 0, _ => ([], false)
  | fuel + 1, i =>
    if ismount i then ([], true)
    else
      let r := mount_path ismount path fuel (i + 1)
      (Event.logWaiting path :: Event.runCmd ("mount " ++ path) 5 :: r.1, r.2)

/-- `{m.remote_mount: m for m in d.values()}` of `setup_nfs_exports`. -/
def rekey_by_remote (d : List (String × MountInfo)) : List (String × MountInfo) :=
  dictOf (d.map (fun p => (p.2.remote_mount, p.2)))

/-- The `con_mounts` dict of `setup_nfs_exports`: the node's own internal
mounts re-keyed by remote path, updated with the internal mounts of a
synthetic node `f'{pid}-n'` of every declared partition. -/
def con_mounts (resolve get_pid : String → String) (cfg : Cfg) :
    List (String × MountInfo) :=
  cfg.instance_defs.foldl
    (fun acc pd =>
      dictUpd acc (rekey_by_remote
        (prepare_network_mounts resolve get_pid cfg (pd.1 ++ "-n") "compute").2))
    (rekey_by_remote
      (prepare_network_mounts resolve get_pid cfg cfg.hostname cfg.instance_type).2)

/-- `f"{path}  *(rw,no_subtree_check,no_root_squash)"`. -/
def export_line (path : String) : String :=
  path ++ "  *(rw,no_subtree_check,no_root_squash)"

/-- The `exports` list of `setup_nfs_exports`: one line per key of
`con_mounts`, in order. -/
def exports (resolve get_pid : String → String) (cfg : Cfg) : List String :=
  (keys (con_mounts resolve get_pid cfg)).map export_line

/-- Content of `/etc/exports.d/cluster.exports` after the write block: the
file is opened with mode `'w'`, so the prior content is discarded, then a
newline and the newline-joined export lines are written. -/
def cluster_exports_content (_prior : String) (exps : List String) : String :=
  "\n" ++ String.intercalate "\n" exps

/-! ### Raw configuration records (for the missing-`local_mount` error path)

`listtodict` evaluates `d['local_mount']`; a record without that key makes
the dict comprehension raise `KeyError`, which propagates out of
`prepare_network_mounts` (nothing catches it).  `RawMount` keeps the field
optional and `listtodictE` returns the error explicitly. -/

/-- A raw `network_storage` record whose `local_mount` key may be absent. -/
structure RawMount where
  server_ip : String
  remote_mount : String
  local_mount : Option String
  fs_type : String
  mount_options : String
deriving DecidableEq, Repr

/-- The record as stored in the dict once `local_mount` was read. -/
def RawMount.toInfo (r : RawMount) (lm : String) : MountInfo :=
  { server_ip := r.server_ip
    remote_mount := r.remote_mount
    local_mount := lm
    fs_type := r.fs_type
    mount_options := r.mount_options }

/-- `cfg` with raw (unvalidated) storage lists. -/
structure RawCfg where
  cluster_name : String
  hostname : String
  instance_type : String
  network_storage : List RawMount
  login_network_storage : List RawMount
  instance_defs : List (String × List RawMount)

/-- `listtodict` over raw records: stops with the `KeyError` at the first
record missing `local_mount`, exactly as the Python dict comprehension. -/
def listtodictE (resolve : String → String) (mountlist : List RawMount) :
    Except String (List (String × MountInfo)) :=
  mountlist.foldlM
    (fun acc d =>
      match d.local_mount with
      | none => Except.error "KeyError: local_mount"
      | some lm => Except.ok (dictInsert acc (resolve lm) (d.toInfo lm)))
    []

/-- The raw role-specific override list (per-partition for compute nodes,
the login list otherwise). -/
def role_storage_raw (get_pid : String → String) (cfg : RawCfg)
    (hostname instance_type : String) : List RawMount :=
  if instance_type = "compute" then
    (dlookup (get_pid hostname) cfg.instance_defs).getD []
  else cfg.login_network_storage

/-- `prepare_network_mounts` over raw records: the `KeyError` raised inside
`listtodict` propagates synchronously (the `error` branches); no catalog is
produced on that path. -/
def prepare_network_mounts_raw (resolve get_pid : String → String) (cfg : RawCfg)
    (hostname instance_type : String) :
    Except String (List (String × MountInfo) × List (String × MountInfo)) :=
  match listtodictE resolve cfg.network_storage with
  | Except.error e => Except.error e
  | Except.ok g =>
    match listtodictE resolve (role_storage_raw get_pid cfg hostname instance_type) with
    | Except.error e => Except.error e
    | Except.ok r =>
      Except.ok
        (dictOf (partition (internal_mount cfg.cluster_name)
            (dictUpd (dictUpd (seeded_mounts cfg.cluster_name) g) r)).1,
          dictOf (partition (internal_mount cfg.cluster_name)
            (dictUpd (dictUpd (seeded_mounts cfg.cluster_name) g) r)).2)

/-! ## Helper lemmas about the embedded program -/

section Dict2

variable {α : Type} {β : Type} [DecidableEq α]

theorem mem_keys_dictOf {l : List (α × β)} {x : α} :
    x ∈ keys (dictOf l) ↔ x ∈ keys l := by
  unfold dictOf
  rw [mem_keys_dictUpd]
  simp [keys]

theorem mem_keys_foldl_dictUpd {σ : Type} {f : σ → List (α × β)}
    {l : List σ} {d : List (α × β)} {x : α} :
    x ∈ keys (l.foldl (fun acc s => dictUpd acc (f s)) d) ↔
      x ∈ keys d ∨ ∃ s ∈ l, x ∈ keys (f s) := by
  induction l generalizing d with
  | nil => simp
  | cons s rest ih =>
    rw [List.foldl_cons, ih, mem_keys_dictUpd]
    constructor
    · rintro ((h | h) | ⟨t, ht, hx⟩)
      · exact Or.inl h
      · exact Or.inr ⟨s, List.mem_cons_self s rest, h⟩
      · exact Or.inr ⟨t, List.mem_cons_of_mem s ht, hx⟩
    · rintro (h | ⟨t, ht, hx⟩)
      · exact Or.inl (Or.inl h)
      · rcases List.mem_cons.mp ht with rfl | ht'
        · exact Or.inl (Or.inr hx)
        · exact Or.inr ⟨t, ht', hx⟩

theorem nodupKeys_foldl_dictUpd {σ : Type} {f : σ → List (α × β)}
    {l : List σ} {d : List (α × β)} (h : NodupKeys d) :
    NodupKeys (l.foldl (fun acc s => dictUpd acc (f s)) d) := by
  induction l generalizing d with
  | nil => exact h
  | cons s rest ih =>
    rw [List.foldl_cons]
    exact ih (nodupKeys_dictUpd h)

theorem nodupKeys_filter {d : List (α × β)} {f : α × β → Bool}
    (h : NodupKeys d) : NodupKeys (d.filter f) := by
  unfold NodupKeys keys at h ⊢
  exact List.Nodup.sublist ((List.filter_sublist d).map Prod.fst) h

end Dict2

theorem partition_foldl {γ : Type} (pred : γ → Bool) (coll : List γ)
    (acc : List γ × List γ) :
    coll.foldl
      (fun acc el => if pred el then (acc.1, acc.2 ++ [el]) else (acc.1 ++ [el], acc.2))
      acc
      = (acc.1 ++ coll.filter (fun x => !pred x), acc.2 ++ coll.filter pred) := by
  induction coll generalizing acc with
  | nil => simp
  | cons x rest ih =>
    rw [List.foldl_cons]
    by_cases hx : pred x = true
    · rw [if_pos hx, ih]
      simp [List.filter_cons, hx]
    · rw [if_neg (by simp [hx]), ih]
      simp [List.filter_cons, hx]

theorem partition_eq {γ : Type} (pred : γ → Bool) (coll : List γ) :
    partition pred coll = (coll.filter (fun x => !pred x), coll.filter pred) := by
  unfold partition
  rw [partition_foldl]
  rfl

theorem internal_mount_iff {cn : String} {p : String × MountInfo} :
    internal_mount cn p = true ↔ p.2.server_ip = CONTROL_MACHINE cn := by
  simp [internal_mount]

theorem keys_seeded {cn : String} : keys (seeded_mounts cn) = default_mounts := by
  unfold seeded_mounts keys
  rw [List.map_map]
  have h : ∀ a ∈ default_mounts,
      (Prod.fst ∘ fun path => (path, control_nfs cn path)) a = id a := by
    intro a _
    rfl
  rw [List.map_congr_left h, List.map_id]

theorem nodupKeys_seeded {cn : String} : NodupKeys (seeded_mounts cn) := by
  unfold NodupKeys
  rw [keys_seeded]
  decide

theorem nodupKeys_listtodict {resolve : String → String} {l : List MountInfo} :
    NodupKeys (listtodict resolve l) := by
  unfold listtodict
  exact nodupKeys_dictOf

theorem nodupKeys_resolved {resolve get_pid : String → String} {cfg : Cfg}
    {hostname instance_type : String} :
    NodupKeys (resolved_mounts resolve get_pid cfg hostname instance_type) :=
  nodupKeys_dictUpd (nodupKeys_dictUpd nodupKeys_seeded)

theorem prepare_network_mounts_eq (resolve get_pid : String → String) (cfg : Cfg)
    (hostname instance_type : String) :
    prepare_network_mounts resolve get_pid cfg hostname instance_type =
      ((resolved_mounts resolve get_pid cfg hostname instance_type).filter
          (fun p => !internal_mount cfg.cluster_name p),
        (resolved_mounts resolve get_pid cfg hostname instance_type).filter
          (internal_mount cfg.cluster_name)) := by
  unfold prepare_network_mounts
  rw [partition_eq]
  rw [dictOf_eq_self (nodupKeys_filter nodupKeys_resolved),
    dictOf_eq_self (nodupKeys_filter nodupKeys_resolved)]

/-! ## Sample configuration used by the witnesses -/

/-- A global override: `/apps` re-pointed at the external server `nfs1`. -/
def m_apps : MountInfo :=
  { server_ip := "nfs1", remote_mount := "/export/apps", local_mount := "/apps",
    fs_type := "nfs", mount_options := "rw,hard" }

/-- A login-class override mount. -/
def m_x : MountInfo :=
  { server_ip := "nfs2", remote_mount := "/export/x", local_mount := "/x",
    fs_type := "nfs", mount_options := "" }

/-- A per-partition override mount. -/
def m_scratch : MountInfo :=
  { server_ip := "nfs3", remote_mount := "/export/scratch", local_mount := "/scratch",
    fs_type := "nfs", mount_options := "rw" }

/-- A small concrete cluster configuration, seen from a login node. -/
def cfg_login : Cfg :=
  { cluster_name := "g1", hostname := "g1-login0", instance_type := "login",
    network_storage := [m_apps], login_network_storage := [m_x],
    instance_defs := [("p1", [m_scratch])] }

/-- The same cluster, seen from the controller. -/
def cfg_ctl : Cfg :=
  { cfg_login with hostname := "g1-controller", instance_type := "controller" }

/-! ## The claims -/

/-- C1: for every default set D, global override list G and role override
list R (the per-partition list when the node role is compute, the login
list otherwise), the resolved catalog's key set equals the union of the
key sets of D, G and R, and every key is mapped to the whole record of the
highest-precedence source holding it, with precedence R > G > D (later
layers replace a colliding record entirely). -/
theorem catalog_union_and_precedence
    (resolve get_pid : String → String) (cfg : Cfg)
    (hostname instance_type : String)
    (D G R cat : List (String × MountInfo))
    (hD : D = seeded_mounts cfg.cluster_name)
    (hG : G = listtodict resolve cfg.network_storage)
    (hR : R = listtodict resolve (role_storage get_pid cfg hostname instance_type))
    (hcat : cat = resolved_mounts resolve get_pid cfg hostname instance_type) :
    (∀ k, k ∈ keys cat ↔ (k ∈ keys D ∨ k ∈ keys G ∨ k ∈ keys R))
    ∧ (∀ k, k ∈ keys R → dlookup k cat = dlookup k R)
    ∧ (∀ k, k ∉ keys R → k ∈ keys G → dlookup k cat = dlookup k G)
    ∧ (∀ k, k ∉ keys R → k ∉ keys G → dlookup k cat = dlookup k D) := by
  subst hD hG hR hcat
  unfold resolved_mounts
  refine ⟨?_, ?_, ?_, ?_⟩
  · intro k
    rw [mem_keys_dictUpd, mem_keys_dictUpd]
    tauto
  · intro k hk
    rw [dlookup_dictUpd_of_mem nodupKeys_listtodict hk]
  · intro k hk1 hk2
    rw [dlookup_dictUpd_of_not_mem hk1,
      dlookup_dictUpd_of_mem nodupKeys_listtodict hk2]
  · intro k hk1 hk2
    rw [dlookup_dictUpd_of_not_mem hk1, dlookup_dictUpd_of_not_mem hk2]

/-- Witness for C1 on the sample cluster: `/apps` is overridden by the
global list and not by the login list, so the catalog holds the global
record. -/
theorem catalog_union_and_precedence_witness :
    ("/apps" ∉ keys (listtodict id (role_storage id cfg_login "g1-login0" "login")))
    ∧ ("/apps" ∈ keys (listtodict id cfg_login.network_storage))
    ∧ dlookup "/apps" (resolved_mounts id id cfg_login "g1-login0" "login")
        = dlookup "/apps" (listtodict id cfg_login.network_storage) :=
  ⟨by decide, by decide,
    (catalog_union_and_precedence id id cfg_login "g1-login0" "login" _ _ _ _
      rfl rfl rfl rfl).2.2.1 "/apps" (by decide) (by decide)⟩

/-- C10: every default mount path is seeded as a record whose server
identity is the controller machine name, whose remote path equals its
local path, with fs type `nfs` and options `defaults,hard,intr`; with no
overrides the resolved catalog is exactly this seed. -/
theorem default_mounts_seed (cn path : String) (hp : path ∈ default_mounts) :
    dlookup path (seeded_mounts cn) = some (control_nfs cn path)
    ∧ (control_nfs cn path).server_ip = CONTROL_MACHINE cn
    ∧ (control_nfs cn path).remote_mount = path
    ∧ (control_nfs cn path).local_mount = path
    ∧ (control_nfs cn path).fs_type = "nfs"
    ∧ (control_nfs cn path).mount_options = "defaults,hard,intr"
    ∧ ∀ (resolve get_pid : String → String) (cfg : Cfg) (hostname itype : String),
        cfg.cluster_name = cn → cfg.network_storage = [] →
        role_storage get_pid cfg hostname itype = [] →
        resolved_mounts resolve get_pid cfg hostname itype = seeded_mounts cn := by
  refine ⟨?_, rfl, rfl, rfl, rfl, rfl, ?_⟩
  · apply dlookup_eq_some_of_mem nodupKeys_seeded
    unfold seeded_mounts
    exact List.mem_map.mpr ⟨path, hp, rfl⟩
  · intro resolve get_pid cfg hostname itype hcn hns hrs
    unfold resolved_mounts
    rw [hns, hrs, hcn]
    rfl

/-- Witness for C10 at `/home`. -/
theorem default_mounts_seed_witness :
    dlookup "/home" (seeded_mounts "g1") = some (control_nfs "g1" "/home") :=
  (default_mounts_seed "g1" "/home" (by decide)).1

theorem foldl_append_line (l : List String) (a : String) :
    l.foldl (fun acc e => acc ++ e ++ "\n") a
      = a ++ l.foldr (fun e acc => e ++ "\n" ++ acc) "" := by
  induction l generalizing a with
  | nil => simp
  | cons e rest ih =>
    rw [List.foldl_cons, ih, List.foldr_cons]
    simp [String.append_assoc]

/-- C9: writing the mount table only appends: the new file content is the
prior content, then a blank-line separator, then one line per rendered
entry in rendering order; in particular the prior content is left intact
as a prefix of the new content. -/
theorem fstab_write_appends (prior : String)
    (resolve get_pid : String → String) (cfg : Cfg) :
    write_fstab prior (fstab_entries resolve get_pid cfg)
      = prior ++ "\n"
        ++ (fstab_entries resolve get_pid cfg).foldr (fun e acc => e ++ "\n" ++ acc) ""
    ∧ ∃ s, write_fstab prior (fstab_entries resolve get_pid cfg) = prior ++ s := by
  constructor
  · unfold write_fstab
    rw [foldl_append_line]
  · refine ⟨"\n" ++ (fstab_entries resolve get_pid cfg).foldr
      (fun e acc => e ++ "\n" ++ acc) "", ?_⟩
    unfold write_fstab
    rw [foldl_append_line, String.append_assoc]

/-- C5 is false as stated: a gcsfuse record whose input `mount_options`
already lists `nonempty` twice renders with the marker twice, not exactly
once (the code only skips the append when the marker is present, it never
deduplicates). -/
theorem gcsfuse_nonempty_twice_counterexample :
    (mount_options_list "gcsfuse" "nonempty,nonempty").count "nonempty" ≠ 1 := by
  decide

theorem add_netdev_of_mem {opts : List String} (h : "_netdev" ∈ opts) :
    add_netdev opts = opts := by
  unfold add_netdev
  rw [if_neg]
  rintro (h1 | h1)
  · rw [h1] at h
    simp at h
  · exact h1 h

theorem add_netdev_of_not_mem {opts : List String} (h : "_netdev" ∉ opts) :
    add_netdev opts = opts ++ ["_netdev"] := by
  unfold add_netdev
  rw [if_pos (Or.inr h)]

/-- C5 (amended): when the input option string lists the non-empty marker
at most once, a gcsfuse record renders with `nonempty` exactly once, even
when the input already contained it (the renderer never adds a second
copy, but it does not deduplicate copies the input already had — see the
counterexample); `_netdev` is contained in every rendered option list and
is added exactly once when absent, never when present. -/
theorem gcsfuse_marker_rendering (fs s : String)
    (h : (option_list_of s).count "nonempty" ≤ 1) :
    (fs = "gcsfuse" → (mount_options_list fs s).count "nonempty" = 1)
    ∧ "_netdev" ∈ mount_options_list fs s
    ∧ ("_netdev" ∈ option_list_of s →
        (mount_options_list fs s).count "_netdev" = (option_list_of s).count "_netdev")
    ∧ ("_netdev" ∉ option_list_of s →
        (mount_options_list fs s).count "_netdev"
          = (option_list_of s).count "_netdev" + 1) := by
  unfold mount_options_list
  by_cases hnd : "_netdev" ∈ option_list_of s
  · rw [add_netdev_of_mem hnd]
    by_cases hfs : fs = "gcsfuse"
    · rw [if_pos hfs]
      by_cases hne : "nonempty" ∈ option_list_of s
      · rw [if_neg (not_not_intro hne)]
        refine ⟨fun _ => ?_, hnd, fun _ => rfl, fun hc => absurd hnd hc⟩
        have h1 : 0 < (option_list_of s).count "nonempty" :=
          List.count_pos_iff.mpr hne
        omega
      · rw [if_pos hne]
        refine ⟨fun _ => ?_, List.mem_append_left _ hnd, fun _ => ?_,
          fun hc => absurd hnd hc⟩
        · rw [List.count_append, List.count_eq_zero_of_not_mem hne]
          decide
        · rw [List.count_append]
          have e : List.count "_netdev" ["nonempty"] = 0 := by decide
          omega
    · rw [if_neg hfs]
      exact ⟨fun hc => absurd hc hfs, hnd, fun _ => rfl, fun hc => absurd hnd hc⟩
  · rw [add_netdev_of_not_mem hnd]
    by_cases hfs : fs = "gcsfuse"
    · rw [if_pos hfs]
      by_cases hne : "nonempty" ∈ option_list_of s
      · have hin : "nonempty" ∈ option_list_of s ++ ["_netdev"] :=
          List.mem_append_left _ hne
        rw [if_neg (not_not_intro hin)]
        refine ⟨fun _ => ?_, List.mem_append_right _ (by simp),
          fun hc => absurd hc hnd, fun _ => ?_⟩
        · rw [List.count_append]
          have e : List.count "nonempty" ["_netdev"] = 0 := by decide
          have h1 : 0 < (option_list_of s).count "nonempty" :=
            List.count_pos_iff.mpr hne
          omega
        · rw [List.count_append]
          have e : List.count "_netdev" ["_netdev"] = 1 := by decide
          omega
      · have hnin : "nonempty" ∉ option_list_of s ++ ["_netdev"] := by
          intro hc
          rcases List.mem_append.mp hc with hc | hc
          · exact hne hc
          · simp at hc
        rw [if_pos hnin]
        refine ⟨fun _ => ?_, ?_, fun hc => absurd hc hnd, fun _ => ?_⟩
        · rw [List.count_append, List.count_append,
            List.count_eq_zero_of_not_mem hne]
          decide
        · exact List.mem_append_left _ (List.mem_append_right _ (by simp))
        · rw [List.count_append, List.count_append]
          have e1 : List.count "_netdev" ["_netdev"] = 1 := by decide
          have e2 : List.count "_netdev" ["nonempty"] = 0 := by decide
          omega
    · rw [if_neg hfs]
      refine ⟨fun hc => absurd hc hfs, List.mem_append_right _ (by simp),
        fun hc => absurd hc hnd, fun _ => ?_⟩
      rw [List.count_append]
      have e1 : List.count "_netdev" ["_netdev"] = 1 := by decide
      omega

/-- Witness for C5 (amended) on a gcsfuse record that already lists
`nonempty` once. -/
theorem gcsfuse_marker_rendering_witness :
    (option_list_of "rw,nonempty").count "nonempty" ≤ 1
    ∧ (mount_options_list "gcsfuse" "rw,nonempty").count "nonempty" = 1 :=
  ⟨by decide, (gcsfuse_marker_rendering "gcsfuse" "rw,nonempty" (by decide)).1 rfl⟩

/-- C2: the locality partition returns two mappings — internal, exactly the
records whose server identity equals the controller machine name, and
external, all the others — whose key sets are disjoint and together cover
the catalog's key set exactly; every record appears unmodified in exactly
one of the two outputs. -/
theorem locality_partition_exact
    (resolve get_pid : String → String) (cfg : Cfg)
    (hostname instance_type : String)
    (cat ext int : List (String × MountInfo))
    (hcat : cat = resolved_mounts resolve get_pid cfg hostname instance_type)
    (hpr : (ext, int) = prepare_network_mounts resolve get_pid cfg hostname instance_type) :
    (∀ kv, kv ∈ int ↔ kv ∈ cat ∧ kv.2.server_ip = CONTROL_MACHINE cfg.cluster_name)
    ∧ (∀ kv, kv ∈ ext ↔ kv ∈ cat ∧ kv.2.server_ip ≠ CONTROL_MACHINE cfg.cluster_name)
    ∧ (∀ k, k ∈ keys cat ↔ (k ∈ keys ext ∨ k ∈ keys int))
    ∧ (∀ k, ¬(k ∈ keys ext ∧ k ∈ keys int)) := by
  rw [prepare_network_mounts_eq, ← hcat, Prod.ext_iff] at hpr
  obtain ⟨hext, hint⟩ := hpr
  dsimp only at hext hint
  have hnd : NodupKeys cat := hcat ▸ nodupKeys_resolved
  have hintm : ∀ kv : String × MountInfo,
      kv ∈ int ↔ kv ∈ cat ∧ kv.2.server_ip = CONTROL_MACHINE cfg.cluster_name := by
    intro kv
    rw [hint, List.mem_filter, internal_mount_iff]
  have hextm : ∀ kv : String × MountInfo,
      kv ∈ ext ↔ kv ∈ cat ∧ kv.2.server_ip ≠ CONTROL_MACHINE cfg.cluster_name := by
    intro kv
    rw [hext, List.mem_filter]
    constructor
    · rintro ⟨h1, h2⟩
      refine ⟨h1, fun hc => ?_⟩
      rw [Bool.not_eq_eq_eq_not, Bool.not_true] at h2
      rw [← internal_mount_iff] at hc
      rw [hc] at h2
      cases h2
    · rintro ⟨h1, h2⟩
      refine ⟨h1, ?_⟩
      rw [Bool.not_eq_eq_eq_not, Bool.not_true]
      rcases Bool.eq_false_or_eq_true (internal_mount cfg.cluster_name kv) with hb | hb
      · exact absurd (internal_mount_iff.mp hb) h2
      · exact hb
  refine ⟨hintm, hextm, ?_, ?_⟩
  · intro k
    constructor
    · intro hk
      rcases mem_keys.mp hk with ⟨v, hv⟩
      by_cases hs : v.server_ip = CONTROL_MACHINE cfg.cluster_name
      · exact Or.inr (fst_mem_keys ((hintm (k, v)).mpr ⟨hv, hs⟩))
      · exact Or.inl (fst_mem_keys ((hextm (k, v)).mpr ⟨hv, hs⟩))
    · rintro (hk | hk)
      · rcases mem_keys.mp hk with ⟨v, hv⟩
        exact fst_mem_keys ((hextm (k, v)).mp hv).1
      · rcases mem_keys.mp hk with ⟨v, hv⟩
        exact fst_mem_keys ((hintm (k, v)).mp hv).1
  · rintro k ⟨hk1, hk2⟩
    rcases mem_keys.mp hk1 with ⟨v1, hv1⟩
    rcases mem_keys.mp hk2 with ⟨v2, hv2⟩
    obtain ⟨hm1, hs1⟩ := (hextm (k, v1)).mp hv1
    obtain ⟨hm2, hs2⟩ := (hintm (k, v2)).mp hv2
    exact hs1 (nodupKeys_value_unique hnd hm1 hm2 ▸ hs2)

/-- Witness for C2 on the sample cluster: `/apps` lands in exactly one of
the two outputs. -/
theorem locality_partition_exact_witness :
    ¬("/apps" ∈ keys (prepare_network_mounts id id cfg_login "g1-login0" "login").1
      ∧ "/apps" ∈ keys (prepare_network_mounts id id cfg_login "g1-login0" "login").2) :=
  (locality_partition_exact id id cfg_login "g1-login0" "login"
    _ _ _ rfl rfl).2.2.2 "/apps"

theorem mem_keys_rekey {d : List (String × MountInfo)} {x : String} :
    x ∈ keys (rekey_by_remote d) ↔ ∃ kv ∈ d, kv.2.remote_mount = x := by
  unfold rekey_by_remote
  rw [mem_keys_dictOf]
  unfold keys
  rw [List.map_map]
  simp [List.mem_map]

theorem node_mounts_eq_append (resolve get_pid : String → String) (cfg : Cfg)
    (h : cfg.instance_type ≠ "controller") :
    node_mounts resolve get_pid cfg
      = (prepare_network_mounts resolve get_pid cfg cfg.hostname cfg.instance_type).1
        ++ (prepare_network_mounts resolve get_pid cfg cfg.hostname cfg.instance_type).2 := by
  unfold node_mounts
  rw [if_pos h, prepare_network_mounts_eq]
  dsimp only
  apply dictUpd_eq_append
  · intro p hp hmem
    rcases mem_keys.mp hmem with ⟨v, hv⟩
    have h1 := List.mem_filter.mp hp
    have h2 := List.mem_filter.mp hv
    have heq : v = p.2 := nodupKeys_value_unique nodupKeys_resolved h2.1 h1.1
    have h3 := h2.2
    rw [heq] at h3
    rw [h1.2] at h3
    cases h3
  · exact nodupKeys_filter nodupKeys_resolved

/-- C4: on the controller node a catalog record served by the controller
itself produces no line in the node's own mount table (the node never
network-mounts itself), yet its remote path is kept in the export set; on
login and compute nodes the same record is rendered into the mount table
normally. -/
theorem controller_self_mount_excluded_but_exported
    (resolve get_pid : String → String) (cfg : Cfg) (k : String) (m : MountInfo)
    (hm : m.server_ip = CONTROL_MACHINE cfg.cluster_name)
    (hcat : (k, m) ∈ resolved_mounts resolve get_pid cfg cfg.hostname cfg.instance_type) :
    (cfg.instance_type = "controller" →
      (k, m) ∉ node_mounts resolve get_pid cfg
      ∧ render_entry resolve cfg.cluster_name cfg.instance_type (k, m) = none
      ∧ m.remote_mount ∈ keys (con_mounts resolve get_pid cfg))
    ∧ (cfg.instance_type ≠ "controller" →
      (k, m) ∈ node_mounts resolve get_pid cfg
      ∧ render_entry resolve cfg.cluster_name cfg.instance_type (k, m)
          = some (render_line resolve k m)
      ∧ render_line resolve k m ∈ fstab_entries resolve get_pid cfg) := by
  have hint : (k, m) ∈ (prepare_network_mounts resolve get_pid cfg
      cfg.hostname cfg.instance_type).2 := by
    rw [prepare_network_mounts_eq]
    dsimp only
    exact List.mem_filter.mpr ⟨hcat, internal_mount_iff.mpr hm⟩
  constructor
  · intro hctl
    refine ⟨?_, ?_, ?_⟩
    · intro hcked
      unfold node_mounts at hcked
      rw [if_neg (fun hc => hc hctl), prepare_network_mounts_eq] at hcked
      dsimp only at hcked
      have h1 := List.mem_filter.mp hcked
      have h2 := h1.2
      have h3 : internal_mount cfg.cluster_name (k, m) = true :=
        internal_mount_iff.mpr hm
      rw [h3] at h2
      simp at h2
    · unfold render_entry
      rw [if_pos ⟨hm, hctl⟩]
    · unfold con_mounts
      rw [mem_keys_foldl_dictUpd]
      exact Or.inl (mem_keys_rekey.mpr ⟨(k, m), hint, rfl⟩)
  · intro hne
    have hmem : (k, m) ∈ node_mounts resolve get_pid cfg := by
      rw [node_mounts_eq_append resolve get_pid cfg hne]
      exact List.mem_append_right _ hint
    have hren : render_entry resolve cfg.cluster_name cfg.instance_type (k, m)
        = some (render_line resolve k m) := by
      unfold render_entry
      rw [if_neg (fun hc => hne hc.2)]
    refine ⟨hmem, hren, ?_⟩
    unfold fstab_entries
    exact List.mem_filterMap.mpr ⟨(k, m), hmem, hren⟩

/-- Witness for C4 on the controller of the sample cluster: the `/home`
seed record is internal, and its remote path survives into the export
keys. -/
theorem controller_self_mount_excluded_but_exported_witness :
    ((control_nfs "g1" "/home").server_ip = CONTROL_MACHINE cfg_ctl.cluster_name)
    ∧ ("/home", control_nfs "g1" "/home")
        ∈ resolved_mounts id id cfg_ctl cfg_ctl.hostname cfg_ctl.instance_type
    ∧ (control_nfs "g1" "/home").remote_mount ∈ keys (con_mounts id id cfg_ctl) :=
  ⟨by decide, by decide,
    ((controller_self_mount_excluded_but_exported id id cfg_ctl "/home"
        (control_nfs "g1" "/home") (by decide) (by decide)).1 rfl).2.2⟩

/-- C3: the export set computed on the controller equals the union, over
the node's own internal-mount view and the synthetic internal-mount view
of a node in every declared partition, of those views' remote paths
(records re-keyed by remote path), deduplicated; one export line of the
form `path  *(rw,no_subtree_check,no_root_squash)` is emitted per distinct
remote path. -/
theorem export_set_is_union_of_internal_views
    (resolve get_pid : String → String) (cfg : Cfg) :
    (∀ p, p ∈ keys (con_mounts resolve get_pid cfg) ↔
      ((∃ kv ∈ (prepare_network_mounts resolve get_pid cfg
            cfg.hostname cfg.instance_type).2, kv.2.remote_mount = p)
        ∨ ∃ pd ∈ cfg.instance_defs,
            ∃ kv ∈ (prepare_network_mounts resolve get_pid cfg
              (pd.1 ++ "-n") "compute").2, kv.2.remote_mount = p))
    ∧ (keys (con_mounts resolve get_pid cfg)).Nodup
    ∧ exports resolve get_pid cfg
        = (keys (con_mounts resolve get_pid cfg)).map export_line := by
  refine ⟨?_, ?_, rfl⟩
  · intro p
    unfold con_mounts
    rw [mem_keys_foldl_dictUpd]
    constructor
    · rintro (h | ⟨pd, hpd, h⟩)
      · exact Or.inl (mem_keys_rekey.mp h)
      · exact Or.inr ⟨pd, hpd, mem_keys_rekey.mp h⟩
    · rintro (h | ⟨pd, hpd, h⟩)
      · exact Or.inl (mem_keys_rekey.mpr h)
      · exact Or.inr ⟨pd, hpd, mem_keys_rekey.mpr h⟩
  · have h : NodupKeys (con_mounts resolve get_pid cfg) := by
      unfold con_mounts
      apply nodupKeys_foldl_dictUpd
      unfold rekey_by_remote
      exact nodupKeys_dictOf
    exact h

theorem export_line_injective : Function.Injective export_line := by
  intro a b hab
  unfold export_line at hab
  have h := congrArg String.data hab
  rw [String.data_append, String.data_append] at h
  exact String.ext (List.append_cancel_right h)

/-- C6: export-table generation is idempotent — with an unchanged export
set the fragment file content is byte-identical regardless of what the
file held before (the file is rewritten from scratch) — and a remote path
already present before regeneration ends up with exactly one line in the
final file. -/
theorem export_table_idempotent (prior1 prior2 : String) (ks : List String)
    (p : String) (hnd : ks.Nodup) (hp : p ∈ ks) :
    cluster_exports_content prior1 (ks.map export_line)
      = cluster_exports_content prior2 (ks.map export_line)
    ∧ (ks.map export_line).count (export_line p) = 1 := by
  constructor
  · rfl
  · rw [List.count_map_of_injective _ _ export_line_injective]
    exact List.count_eq_one_of_mem hnd hp

/-- Witness for C6 with the export set `{/export/apps, /home}`. -/
theorem export_table_idempotent_witness :
    (["/export/apps", "/home"].Nodup ∧ "/export/apps" ∈ ["/export/apps", "/home"])
    ∧ (["/export/apps", "/home"].map export_line).count (export_line "/export/apps") = 1 :=
  ⟨⟨by decide, by decide⟩,
    (export_table_idempotent "old content" "" ["/export/apps", "/home"]
      "/export/apps" (by decide) (by decide)).2⟩

theorem listtodictE_foldlM_error (resolve : String → String) (l : List RawMount)
    (init : List (String × MountInfo)) (h : ∃ r ∈ l, r.local_mount = none) :
    l.foldlM
      (fun acc d =>
        match d.local_mount with
        | none => Except.error "KeyError: local_mount"
        | some lm => Except.ok (dictInsert acc (resolve lm) (d.toInfo lm)))
      init = Except.error "KeyError: local_mount" := by
  induction l generalizing init with
  | nil =>
    rcases h with ⟨r, hr, _⟩
    simp at hr
  | cons d rest ih =>
    rw [List.foldlM_cons]
    cases hd : d.local_mount with
    | none =>
      rfl
    | some lm =>
      have hex : ∃ r ∈ rest, r.local_mount = none := by
        rcases h with ⟨r, hr, hrm⟩
        rcases List.mem_cons.mp hr with rfl | hr'
        · rw [hd] at hrm
          cases hrm
        · exact ⟨r, hr', hrm⟩
      exact ih (dictInsert init (resolve lm) (d.toInfo lm)) hex

theorem listtodictE_foldlM_ok (resolve : String → String) (l : List RawMount)
    (init : List (String × MountInfo)) (h : ∀ r ∈ l, r.local_mount ≠ none) :
    ∃ d, l.foldlM
      (fun acc d =>
        match d.local_mount with
        | none => Except.error "KeyError: local_mount"
        | some lm => Except.ok (dictInsert acc (resolve lm) (d.toInfo lm)))
      init = Except.ok d := by
  induction l generalizing init with
  | nil => exact ⟨init, rfl⟩
  | cons d rest ih =>
    cases hd : d.local_mount with
    | none => exact absurd hd (h d (List.mem_cons_self d rest))
    | some lm =>
      rcases ih (dictInsert init (resolve lm) (d.toInfo lm))
          (fun r hr => h r (List.mem_cons_of_mem d hr)) with ⟨out, hout⟩
      refine ⟨out, ?_⟩
      rw [List.foldlM_cons, hd]
      exact hout

theorem listtodictE_error {resolve : String → String} {l : List RawMount}
    (h : ∃ r ∈ l, r.local_mount = none) :
    listtodictE resolve l = Except.error "KeyError: local_mount" :=
  listtodictE_foldlM_error resolve l [] h

theorem listtodictE_ok {resolve : String → String} {l : List RawMount}
    (h : ∀ r ∈ l, r.local_mount ≠ none) :
    ∃ d, listtodictE resolve l = Except.ok d :=
  listtodictE_foldlM_ok resolve l [] h

/-- C7: an override list containing a record without `local_mount` makes
catalog building fail immediately with the configuration error, which
propagates synchronously to the caller (the `Except.error` result); no
catalog is produced for that provisioning run and no default local path is
substituted.  The first conjunct covers the global list, the second the
role-specific list actually consumed. -/
theorem missing_local_mount_aborts
    (resolve get_pid : String → String) (cfg : RawCfg)
    (hostname instance_type : String) :
    ((∃ r ∈ cfg.network_storage, r.local_mount = none) →
      prepare_network_mounts_raw resolve get_pid cfg hostname instance_type
        = Except.error "KeyError: local_mount")
    ∧ ((∀ r ∈ cfg.network_storage, r.local_mount ≠ none) →
      (∃ r ∈ role_storage_raw get_pid cfg hostname instance_type,
        r.local_mount = none) →
      prepare_network_mounts_raw resolve get_pid cfg hostname instance_type
        = Except.error "KeyError: local_mount") := by
  constructor
  · intro hbad
    unfold prepare_network_mounts_raw
    rw [listtodictE_error hbad]
  · intro hok hbad
    obtain ⟨g, hg⟩ := listtodictE_ok hok
    unfold prepare_network_mounts_raw
    rw [hg, listtodictE_error hbad]

/-- A raw record with no `local_mount` key. -/
def raw_nolocal : RawMount :=
  { server_ip := "nfs9", remote_mount := "/export/y", local_mount := none,
    fs_type := "nfs", mount_options := "" }

/-- A raw configuration whose global override list has a record without
`local_mount`. -/
def cfg_raw_bad : RawCfg :=
  { cluster_name := "g1", hostname := "g1-login0", instance_type := "login",
    network_storage := [raw_nolocal], login_network_storage := [],
    instance_defs := [] }

/-- Witness for C7: the bad raw configuration aborts with the KeyError. -/
theorem missing_local_mount_aborts_witness :
    prepare_network_mounts_raw id id cfg_raw_bad "g1-login0" "login"
      = Except.error "KeyError: local_mount" :=
  (missing_local_mount_aborts id id cfg_raw_bad "g1-login0" "login").1
    ⟨raw_nolocal, by decide, rfl⟩

theorem mount_path_zero {ismount : Nat → Bool} {path : String} {i : Nat} :
    mount_path ismount path 0 i = ([], false) := rfl

theorem mount_path_succ_true {ismount : Nat → Bool} {path : String}
    {fuel i : Nat} (h : ismount i = true) :
    mount_path ismount path (fuel + 1) i = ([], true) := by
  simp [mount_path, h]

theorem mount_path_succ_false {ismount : Nat → Bool} {path : String}
    {fuel i : Nat} (h : ismount i = false) :
    mount_path ismount path (fuel + 1) i =
      (Event.logWaiting path :: Event.runCmd ("mount " ++ path) 5 ::
          (mount_path ismount path fuel (i + 1)).1,
        (mount_path ismount path fuel (i + 1)).2) := by
  simp [mount_path, h]

/-- C8: the per-path wait loop never terminates with an error and never
escalates a not-yet-mounted poll to a fatal failure: it exits (with
success) only once the path is observed mounted; if the path is never
observed mounted it is still retrying after any number of polls (no
attempt-count ceiling); every action it emits is either the waiting log
line or a `mount` attempt with the fixed five-second wait; and it does
exit as soon as a poll observes the path mounted. -/
theorem mount_path_retries_forever (ismount : Nat → Bool) (path : String) :
    (∀ fuel i, (mount_path ismount path fuel i).2 = true →
      ∃ j, i ≤ j ∧ j < i + fuel ∧ ismount j = true)
    ∧ ((∀ j, ismount j = false) → ∀ fuel i,
      (mount_path ismount path fuel i).2 = false
        ∧ (mount_path ismount path fuel i).1.length = 2 * fuel)
    ∧ (∀ fuel i, ∀ e ∈ (mount_path ismount path fuel i).1,
      e = Event.logWaiting path ∨ e = Event.runCmd ("mount " ++ path) 5)
    ∧ (∀ fuel i n, n < fuel → ismount (i + n) = true →
      (mount_path ismount path fuel i).2 = true) := by
  refine ⟨?_, ?_, ?_, ?_⟩
  · intro fuel
    induction fuel with
    | zero =>
      intro i h
      rw [mount_path_zero] at h
      cases h
    | succ fuel ih =>
      intro i h
      cases hm : ismount i with
      | true => exact ⟨i, Nat.le_refl i, by omega, hm⟩
      | false =>
        rw [mount_path_succ_false hm] at h
        rcases ih (i + 1) h with ⟨j, hj1, hj2, hj3⟩
        exact ⟨j, by omega, by omega, hj3⟩
  · intro hall fuel
    induction fuel with
    | zero =>
      intro i
      rw [mount_path_zero]
      exact ⟨rfl, rfl⟩
    | succ fuel ih =>
      intro i
      rw [mount_path_succ_false (hall i)]
      refine ⟨(ih (i + 1)).1, ?_⟩
      have hlen := (ih (i + 1)).2
      simp only [List.length_cons]
      omega
  · intro fuel
    induction fuel with
    | zero =>
      intro i e he
      rw [mount_path_zero] at he
      cases he
    | succ fuel ih =>
      intro i e he
      cases hm : ismount i with
      | true =>
        rw [mount_path_succ_true hm] at he
        cases he
      | false =>
        rw [mount_path_succ_false hm] at he
        rcases List.mem_cons.mp he with rfl | he1
        · exact Or.inl rfl
        · rcases List.mem_cons.mp he1 with rfl | he2
          · exact Or.inr rfl
          · exact ih (i + 1) e he2
  · intro fuel
    induction fuel with
    | zero =>
      intro i n hn
      omega
    | succ fuel ih =>
      intro i n hn hmn
      cases hm : ismount i with
      | true => rw [mount_path_succ_true hm]
      | false =>
        rw [mount_path_succ_false hm]
        cases n with
        | zero =>
          rw [Nat.add_zero] at hmn
          rw [hmn] at hm
          cases hm
        | succ n =>
          have : i + 1 + n = i + (n + 1) := by omega
          exact ih (i + 1) n (by omega) (by rw [this]; exact hmn)

/-- Witness for C8: with a path first observed mounted at the third poll,
the loop has exited by five polls. -/
theorem mount_path_retries_forever_witness :
    (mount_path (fun j => decide (j = 2)) "/home" 5 0).2 = true :=
  (mount_path_retries_forever (fun j => decide (j = 2)) "/home").2.2.2 5 0 2
    (by decide) (by decide)
